import Mathlib

/-!
Shallow embedding of the headline-scroller core of the led-matrix-clock
repository (display/headline_scroller.py, fonts/bitmap_font.py,
config.py), together with proofs of the frozen claims about it.

Modelling conventions:
* PIL images are modelled as a width, a height and a total pixel function
  `px : Nat -> Nat -> Pix`; values of `px` outside the rectangle are
  irrelevant junk, and every operation that reads pixels guards its reads
  by the source image's bounds (PIL pads crops with black and clips
  pastes, which the guards reproduce).
* Python ints are modelled as `Nat`.  Every subtraction performed by the
  code is shown, under the hypotheses of the claims that touch it, not to
  underflow, so truncated subtraction agrees with Python's.
* The font file load (`ensure_font_loaded`, file I/O) is modelled by the
  boolean `Font.loaded`: the outcome of the load attempt.  The font table
  itself (`font_data`) is the function `Font.data`.
* The headline fingerprint `str(hash(tuple(headlines)))` is modelled by
  the headline list itself; equal lists always have equal fingerprints,
  which is the only property the code relies on for the claims.
-/

namespace LedClock

/-! ## Pixels and images (PIL subset used by the scroller) -/

/-- An RGB pixel, `(r, g, b)`. -/
abbrev Pix := Nat × Nat × Nat

/-- The background colour `(0, 0, 0)`. -/
def BLACK : Pix := (0, 0, 0)

/-- The glyph colour used by `bitmap_font.create_text_image`. -/
def WHITE : Pix := (255, 255, 255)

/-- `Colors.YELLOW` from config.py. -/
def YELLOW : Pix := (255, 255, 0)

/-- `Layout.HEADLINES_HEIGHT` from config.py. -/
def HEADLINES_HEIGHT : Nat := 8

/-- A PIL RGB image: a rectangle of pixels. -/
structure Img where
  width : Nat
  height : Nat
  px : Nat → Nat → Pix

/-- `Image.new('RGB', (w, h), (0, 0, 0))`. -/
def newImg (w h : Nat) : Img := ⟨w, h, fun _ _ => BLACK⟩

/-- `img.crop((a, 0, b, HEADLINES_HEIGHT))`: every crop the scroller
performs uses the full headline row height.  PIL pads regions outside the
source with black, which the guard reproduces. -/
def crop (img : Img) (a b : Nat) : Img :=
  ⟨b - a, HEADLINES_HEIGHT,
    fun x y => if a + x < img.width ∧ y < img.height then img.px (a + x) y else BLACK⟩

/-- `dst.paste(src, (x0, 0))`: plain PIL paste (copies every source pixel,
clipped to the destination rectangle). -/
def pasteCopy (dst src : Img) (x0 : Nat) : Img :=
  { dst with px := fun x y =>
      if x0 ≤ x ∧ x - x0 < src.width ∧ y < src.height ∧ x < dst.width ∧ y < dst.height
      then src.px (x - x0) y else dst.px x y }

/-! ## Bitmap font (fonts/bitmap_font.py) -/

/-- The bitmap font state: whether `load_font` succeeded, and the
character table.  A bitmap row models one comma-separated row string,
`true` standing for the character `'1'`. -/
structure Font where
  loaded : Bool
  data : Char → Option (List (List Bool))

/-- `BitmapFontManager.get_char_bitmap` (the `char` argument is a single
character of the iterated text, hence never empty). -/
def get_char_bitmap (f : Font) (c : Char) : Option (List (List Bool)) :=
  if f.loaded then f.data c else none

/-- `BitmapFontManager.get_char_dimensions`: `(2, 5)` for a missing or
empty bitmap, else `(len(bitmap[0]), len(bitmap))`. -/
def get_char_dimensions (f : Font) (c : Char) : Nat × Nat :=
  match get_char_bitmap f c with
  | none => (2, 5)
  | some [] => (2, 5)
  | some (r :: rs) => (r.length, rs.length + 1)

/-- `BitmapFontManager.get_text_dimensions`: `(0, 0)` for empty text or a
failed font load; otherwise the sum of character widths plus one pixel of
spacing between consecutive characters, and the running maximum height
started at 5. -/
def get_text_dimensions (f : Font) (t : List Char) : Nat × Nat :=
  if t = [] ∨ f.loaded = false then (0, 0)
  else ((t.map (fun c => (get_char_dimensions f c).1)).sum + (t.length - 1),
        (t.map (fun c => (get_char_dimensions f c).2)).foldl max 5)

/-- One character drawn at horizontal offset `x0`: white wherever the
bitmap row has a `'1'`. -/
def drawBitmap (img : Img) (bm : List (List Bool)) (x0 : Nat) : Img :=
  { img with px := fun x y =>
      if x0 ≤ x ∧ ((bm.getD y []).getD (x - x0) false) = true then WHITE else img.px x y }

/-- `BitmapFontManager.create_text_image`: `none` for empty text, a failed
font load, or zero computed width/height; otherwise the characters drawn
left to right, a missing or empty bitmap advancing the pen by 2 and a
drawn character by its width plus 1. -/
def create_text_image (f : Font) (t : List Char) : Option Img :=
  if t = [] ∨ f.loaded = false then none
  else
    let w := (get_text_dimensions f t).1
    let h := (get_text_dimensions f t).2
    if w = 0 ∨ h = 0 then none
    else some (t.foldl (fun acc c =>
        match get_char_bitmap f c with
        | none => (acc.1, acc.2 + 2)
        | some [] => (acc.1, acc.2 + 2)
        | some (r :: rs) => (drawBitmap acc.1 (r :: rs) acc.2, acc.2 + r.length + 1))
      (newImg w h, 0)).1

/-! ## Scroller state (OptimizedHeadlineScroller) -/

/-- One entry of `self.blocks`:
`{'start_pixel': _, 'end_pixel': _, 'headline_count': _}`. -/
structure Block where
  start_pixel : Nat
  end_pixel : Nat
  headline_count : Nat
deriving DecidableEq, Inhabited, Repr

/-- A headline string. -/
abbrev Headline := List Char

/-- The mutable fields of `OptimizedHeadlineScroller`. -/
structure ScrollerState where
  display_width : Nat
  scroll_speed : Nat
  headline_strip : Option Img
  strip_width : Nat
  scroll_x : Nat
  current_headlines : List Headline
  last_headlines_hash : Option (List Headline)
  blocks : List Block

/-- The `" • "` bullet separator between headlines. -/
def SEPARATOR : Headline := [' ', '•', ' ']

/-- The texts rasterized by `_build_headline_strip`: the separator is
prepended to every headline except the first. -/
def buildTexts : List Headline → List Headline
  | [] => []
  | h :: rest => h :: rest.map (fun x => SEPARATOR ++ x)

/-- The texts rasterized by `_append_headlines_to_strip`: the separator is
always prepended. -/
def appendTexts (hs : List Headline) : List Headline :=
  hs.map (fun h => SEPARATOR ++ h)

/-- The width/image accumulation loop of `_build_headline_strip`: a
successful rasterization contributes its image width and is collected, a
failed one contributes the `getsize` fallback width. -/
def buildCalc (f : Font) (texts : List Headline) : Nat × List Img :=
  texts.foldl (fun acc t =>
    match create_text_image f t with
    | some img => (acc.1 + img.width, acc.2 ++ [img])
    | none => (acc.1 + (get_text_dimensions f t).1, acc.2)) (0, [])

/-- The width/image accumulation loop of `_append_headlines_to_strip`: a
failed rasterization is skipped outright. -/
def appendCalc (f : Font) (texts : List Headline) : Nat × List Img :=
  texts.foldl (fun acc t =>
    match create_text_image f t with
    | some img => (acc.1 + img.width, acc.2 ++ [img])
    | none => acc) (0, [])

/-- The per-headline paste loop shared by build and append: text pixels
(non-black source pixels) are written in `Colors.YELLOW`, vertically
centred via `y_offset = max(0, (HEADLINES_HEIGHT - h) // 2)`, clipped to
the row height and the destination width (the two `break` guards). -/
def pasteYellow (dst src : Img) (x0 : Nat) : Img :=
  { dst with px := fun x y =>
      if x0 ≤ x ∧ x - x0 < src.width ∧
         (HEADLINES_HEIGHT - src.height) / 2 ≤ y ∧
         y - (HEADLINES_HEIGHT - src.height) / 2 < src.height ∧
         y < HEADLINES_HEIGHT ∧ x < dst.width ∧
         src.px (x - x0) (y - (HEADLINES_HEIGHT - src.height) / 2) ≠ BLACK
      then YELLOW else dst.px x y }

/-- Paste a list of headline images one after another starting at pen
position `x0` (the `current_x` loop). -/
def pasteAllFrom (base : Img) (imgs : List Img) (x0 : Nat) : Img :=
  (imgs.foldl (fun acc img => (pasteYellow acc.1 img acc.2, acc.2 + img.width)) (base, x0)).1

/-- `OptimizedHeadlineScroller._build_headline_strip`. -/
def buildStrip (f : Font) (s : ScrollerState) (headlines : List Headline) : ScrollerState :=
  if headlines = [] then
    { s with headline_strip := some (newImg s.display_width HEADLINES_HEIGHT),
             strip_width := s.display_width,
             blocks := [] }
  else
    let wc := buildCalc f (buildTexts headlines)
    let total_width := wc.1 + 2 * s.display_width
    let strip := pasteAllFrom (newImg total_width HEADLINES_HEIGHT) wc.2 0
    { s with headline_strip := some strip,
             strip_width := total_width,
             current_headlines := headlines,
             blocks := [⟨0, total_width, headlines.length⟩] }

/-- `OptimizedHeadlineScroller._append_headlines_to_strip`. -/
def appendStrip (f : Font) (s : ScrollerState) (new_headlines : List Headline) : ScrollerState :=
  match new_headlines, s.headline_strip with
  | [], _ => buildStrip f s []
  | _ :: _, none => buildStrip f s new_headlines
  | _ :: _, some strip =>
    let wc := appendCalc f (appendTexts new_headlines)
    match wc.2 with
    | [] => s
    | _ :: _ =>
      let extended_width := s.strip_width + wc.1
      let base := pasteCopy (newImg extended_width HEADLINES_HEIGHT) strip 0
      let extended := pasteAllFrom base wc.2 s.strip_width
      { s with headline_strip := some extended,
               strip_width := extended_width,
               current_headlines := s.current_headlines ++ new_headlines,
               blocks := s.blocks ++ [⟨s.strip_width, extended_width, new_headlines.length⟩] }

/-- `OptimizedHeadlineScroller.update_headlines`. -/
def update_headlines (f : Font) (s : ScrollerState) (headlines : List Headline) : ScrollerState :=
  if headlines = [] then s
  else if some headlines = s.last_headlines_hash then s
  else
    let s' := appendStrip f s headlines
    { s' with last_headlines_hash := some headlines }

/-- The `blocks_to_trim` loop of `trim_scrolled_blocks`: scan
`self.blocks[:-1]` from the front, collecting while
`self.scroll_x > block['end_pixel']`, and stop at the first block that is
not strictly passed. -/
def blocksToTrim (s : ScrollerState) : List Block :=
  s.blocks.dropLast.takeWhile (fun b => decide (b.end_pixel < s.scroll_x))

/-- `trim_amount = blocks_to_trim[-1]['end_pixel']` (0 when nothing is
collected; the code only reads it when the collection is non-empty). -/
def trimAmount (s : ScrollerState) : Nat :=
  ((blocksToTrim s).getLastD default).end_pixel

/-- `OptimizedHeadlineScroller.trim_scrolled_blocks`.  Note the source
returns without touching the block list when `headline_strip` is `None`. -/
def trim_scrolled_blocks (s : ScrollerState) : ScrollerState :=
  if s.blocks.length ≤ 1 then s
  else
    match blocksToTrim s with
    | [] => s
    | _ :: _ =>
      match s.headline_strip with
      | none => s
      | some strip =>
        let ta := trimAmount s
        let new_strip := crop strip ta s.strip_width
        { s with headline_strip := some new_strip,
                 strip_width := new_strip.width,
                 scroll_x := s.scroll_x - ta,
                 blocks := (s.blocks.drop (blocksToTrim s).length).map
                   (fun b => { b with start_pixel := b.start_pixel - ta,
                                      end_pixel := b.end_pixel - ta }) }

/-- The width actually removed from the strip by `trim_scrolled_blocks`
(0 on every early-return path). -/
def trimmedWidth (s : ScrollerState) : Nat :=
  if s.blocks.length ≤ 1 then 0
  else
    match blocksToTrim s with
    | [] => 0
    | _ :: _ =>
      match s.headline_strip with
      | none => 0
      | some _ => trimAmount s

/-- `OptimizedHeadlineScroller.get_display_slice`: returns the updated
state (the defensive `scroll_x` normalization mutates it) together with
the viewport image. -/
def get_display_slice (s : ScrollerState) : ScrollerState × Img :=
  match s.headline_strip with
  | none => (s, newImg s.display_width HEADLINES_HEIGHT)
  | some strip =>
    let sx := if s.strip_width ≤ s.scroll_x then 0 else s.scroll_x
    let s' := { s with scroll_x := sx }
    let end_x := sx + s.display_width
    if end_x ≤ s.strip_width then
      (s', crop strip sx end_x)
    else
      let slice0 := newImg s.display_width HEADLINES_HEIGHT
      let remaining := s.strip_width - sx
      let slice1 := if 0 < remaining
        then pasteCopy slice0 (crop strip sx s.strip_width) 0 else slice0
      let wrap := s.display_width - remaining
      let slice2 := if 0 < wrap
        then pasteCopy slice1 (crop strip 0 (min wrap s.strip_width)) remaining else slice1
      (s', slice2)

/-- `OptimizedHeadlineScroller.advance_scroll`.  Python's
`pixels = pixels or self.scroll_speed` makes an explicit `0` (falsy)
behave like the default `None`. -/
def advance_scroll (s : ScrollerState) (pixels : Option Nat) : ScrollerState :=
  match s.headline_strip with
  | none => s
  | some _ =>
    let p := match pixels with
      | none => s.scroll_speed
      | some q => if q = 0 then s.scroll_speed else q
    let sx0 := s.scroll_x + p
    let sx := if s.strip_width ≤ sx0 then sx0 % s.strip_width else sx0
    let s' := { s with scroll_x := sx }
    if sx % 1000 < s.scroll_speed then trim_scrolled_blocks s' else s'

/-! ## Derived specification-side definitions -/

/-- The width a headline text contributes when only successful
rasterizations count: the rendered image width on success, zero on
failure. -/
def successWidth (f : Font) (t : Headline) : Nat :=
  match create_text_image f t with
  | some img => img.width
  | none => 0

/-- The spec invariant `strip_width == last_block.end_pixel` whenever the
block list is non-empty. -/
def stripInv (s : ScrollerState) : Bool :=
  s.blocks.isEmpty || (s.strip_width == (s.blocks.getLastD default).end_pixel)

/-- Well-formed block list starting at pixel `x`: each block starts where
told, is non-degenerate, and the next block continues at its end (the
contiguity/ordering invariant of the block list). -/
def blocksWF : Nat → List Block → Bool
  | _, [] => true
  | x, b :: rest =>
    (b.start_pixel == x) && (decide (b.start_pixel < b.end_pixel)) && blocksWF b.end_pixel rest

/-! ## List helper lemmas -/

theorem getLastD_indep {α : Type} (l : List α) (d₁ d₂ : α) (h : l ≠ []) :
    l.getLastD d₁ = l.getLastD d₂ := by
  cases l with
  | nil => exact absurd rfl h
  | cons a l => rw [List.getLastD_cons, List.getLastD_cons]

theorem getLastD_mem {α : Type} (l : List α) (d : α) (h : l ≠ []) : l.getLastD d ∈ l := by
  cases l with
  | nil => exact absurd rfl h
  | cons a l =>
    rw [List.getLastD_cons]
    exact List.getLastD_mem_cons l a

theorem getD_drop {α : Type} (l : List α) (k i : Nat) (d : α) :
    (l.drop k).getD i d = l.getD (k + i) d := by
  induction l generalizing k with
  | nil => simp [List.getD]
  | cons a l ih =>
    cases k with
    | zero => simp
    | succ k =>
      rw [List.drop_succ_cons, ih k]
      have : k + 1 + i = (k + i) + 1 := by omega
      rw [this, List.getD_cons_succ]

theorem getD_map_lt {α β : Type} (l : List α) (f : α → β) (i : Nat) (d : β) (d' : α)
    (h : i < l.length) : (l.map f).getD i d = f (l.getD i d') := by
  induction l generalizing i with
  | nil => simp at h
  | cons a l ih =>
    cases i with
    | zero => rfl
    | succ i =>
      simp only [List.map_cons, List.getD_cons_succ]
      exact ih i (by simpa using h)

theorem tw_append_drop {α : Type} (p : α → Bool) (l : List α) :
    l.takeWhile p ++ l.drop (l.takeWhile p).length = l := by
  induction l with
  | nil => rfl
  | cons a l ih =>
    by_cases h : p a = true
    · simp only [List.takeWhile_cons, h, if_true, List.length_cons, List.cons_append,
        List.drop_succ_cons]
      rw [ih]
    · simp [List.takeWhile_cons, h]

theorem tw_length_le {α : Type} (p : α → Bool) (l : List α) :
    (l.takeWhile p).length ≤ l.length := by
  induction l with
  | nil => simp
  | cons a l ih =>
    by_cases h : p a = true
    · simp only [List.takeWhile_cons, h, if_true, List.length_cons]
      omega
    · simp [List.takeWhile_cons, h]

theorem tw_mem_pred {α : Type} (p : α → Bool) (l : List α) (a : α)
    (h : a ∈ l.takeWhile p) : p a = true := by
  induction l with
  | nil => simp [List.takeWhile] at h
  | cons b l ih =>
    by_cases hb : p b = true
    · rw [List.takeWhile_cons, if_pos hb] at h
      rcases List.mem_cons.mp h with rfl | h
      · exact hb
      · exact ih h
    · rw [List.takeWhile_cons, if_neg hb] at h
      simp at h

theorem tw_getD_pred {α : Type} (p : α → Bool) (l : List α) (i : Nat) (d : α)
    (h : i < (l.takeWhile p).length) : p (l.getD i d) = true := by
  induction l generalizing i with
  | nil => simp [List.takeWhile] at h
  | cons a l ih =>
    by_cases ha : p a = true
    · rw [List.takeWhile_cons, if_pos ha] at h
      cases i with
      | zero => exact ha
      | succ i =>
        rw [List.getD_cons_succ]
        exact ih i (by simpa using h)
    · rw [List.takeWhile_cons, if_neg ha] at h
      simp at h

theorem tw_stop {α : Type} (p : α → Bool) (l : List α) (d : α)
    (h : (l.takeWhile p).length < l.length) :
    p (l.getD (l.takeWhile p).length d) = false := by
  induction l with
  | nil => simp at h
  | cons a l ih =>
    by_cases ha : p a = true
    · rw [List.takeWhile_cons, if_pos ha] at h ⊢
      rw [List.length_cons, List.getD_cons_succ]
      exact ih (by simpa using h)
    · rw [List.takeWhile_cons, if_neg ha]
      simpa using ha

theorem dropLast_getD {α : Type} (l : List α) (i : Nat) (d : α) (h : i < l.length - 1) :
    l.dropLast.getD i d = l.getD i d := by
  induction l generalizing i with
  | nil => simp at h
  | cons a l ih =>
    cases l with
    | nil => simp at h
    | cons b t =>
      cases i with
      | zero => rfl
      | succ i =>
        rw [List.dropLast_cons₂, List.getD_cons_succ, List.getD_cons_succ]
        exact ih i (by simp at h ⊢; omega)

theorem dl_append_getLastD {α : Type} (l : List α) (d : α) (h : l ≠ []) :
    l.dropLast ++ [l.getLastD d] = l := by
  induction l generalizing d with
  | nil => exact absurd rfl h
  | cons a l ih =>
    cases l with
    | nil => rfl
    | cons b t =>
      rw [List.dropLast_cons₂, List.getLastD_cons, List.cons_append, ih a (by simp)]

/-! ## Block invariant lemmas -/

/-- The pixel where a block chain ends: the last block's `end_pixel`, or
the start position for an empty chain. -/
def lastEndD : List Block → Nat → Nat
  | [], x => x
  | b :: rest, _ => lastEndD rest b.end_pixel

theorem lastEndD_eq_getLastD (l : List Block) (x : Nat) (d : Block) (h : l ≠ []) :
    lastEndD l x = (l.getLastD d).end_pixel := by
  induction l generalizing x d with
  | nil => exact absurd rfl h
  | cons b l ih =>
    rw [List.getLastD_cons]
    cases l with
    | nil => rfl
    | cons c t => exact ih b.end_pixel b (by simp)

theorem blocksWF_append (x : Nat) (l₁ l₂ : List Block)
    (h : blocksWF x (l₁ ++ l₂) = true) : blocksWF (lastEndD l₁ x) l₂ = true := by
  induction l₁ generalizing x with
  | nil => exact h
  | cons b l ih =>
    rw [List.cons_append] at h
    unfold blocksWF at h
    rw [Bool.and_eq_true, Bool.and_eq_true] at h
    exact ih b.end_pixel h.2

theorem blocksWF_end_gt (x : Nat) (l : List Block) (h : blocksWF x l = true) :
    ∀ b ∈ l, x < b.end_pixel := by
  induction l generalizing x with
  | nil => intro b hb; simp at hb
  | cons a l ih =>
    unfold blocksWF at h
    rw [Bool.and_eq_true, Bool.and_eq_true] at h
    obtain ⟨⟨hstart, hlt⟩, hrest⟩ := h
    rw [beq_iff_eq] at hstart
    rw [decide_eq_true_eq] at hlt
    intro b hb
    rcases List.mem_cons.mp hb with rfl | hb
    · omega
    · have := ih a.end_pixel hrest b hb
      omega

/-! ## Font lemmas -/

theorem foldl_max_ge (l : List Nat) (a : Nat) : a ≤ l.foldl max a := by
  induction l generalizing a with
  | nil => exact Nat.le_refl a
  | cons x l ih => exact Nat.le_trans (Nat.le_max_left a x) (ih (max a x))

/-- `get_text_dimensions` never reports a zero height: the running
maximum starts at 5. -/
theorem text_height_ge (f : Font) (t : List Char) (hc : ¬(t = [] ∨ f.loaded = false)) :
    5 ≤ (get_text_dimensions f t).2 := by
  rw [get_text_dimensions, if_neg hc]
  exact foldl_max_ge _ 5

/-- A failed rasterization always measures to width 0: `create_text_image`
returns `None` exactly for empty text, an unloaded font, or a computed
width of zero, and in each case `get_text_dimensions` reports width 0.
This is why the `getsize` fallback of `_build_headline_strip` adds zero
pixels for a failed headline. -/
theorem create_none_width_zero (f : Font) (t : List Char)
    (h : create_text_image f t = none) : (get_text_dimensions f t).1 = 0 := by
  by_cases hc : t = [] ∨ f.loaded = false
  · rw [get_text_dimensions, if_pos hc]
  · rw [create_text_image, if_neg hc] at h
    by_cases hw : (get_text_dimensions f t).1 = 0 ∨ (get_text_dimensions f t).2 = 0
    · rcases hw with hw | hw
      · exact hw
      · have := text_height_ge f t hc
        omega
    · rw [if_neg hw] at h
      exact absurd h (by simp)

/-- The width/fallback contribution of one headline in
`_build_headline_strip`. -/
def buildContribution (f : Font) (t : Headline) : Nat :=
  match create_text_image f t with
  | some img => img.width
  | none => (get_text_dimensions f t).1

theorem buildContribution_eq (f : Font) (t : Headline) :
    buildContribution f t = successWidth f t := by
  rcases h : create_text_image f t with _ | img
  · simp [buildContribution, successWidth, h, create_none_width_zero f t h]
  · simp [buildContribution, successWidth, h]

theorem drawFold_width (f : Font) (t : List Char) :
    ∀ acc : Img × Nat,
      ((t.foldl (fun acc c =>
        match get_char_bitmap f c with
        | none => (acc.1, acc.2 + 2)
        | some [] => (acc.1, acc.2 + 2)
        | some (r :: rs) => (drawBitmap acc.1 (r :: rs) acc.2, acc.2 + r.length + 1)) acc).1).width
      = acc.1.width := by
  induction t with
  | nil => intro acc; rfl
  | cons c t ih =>
    intro acc
    rw [List.foldl_cons]
    rcases h : get_char_bitmap f c with _ | bm
    · simp only [h]; exact ih _
    · rcases bm with _ | ⟨r, rs⟩
      · simp only [h]; exact ih _
      · simp only [h]
        rw [ih (drawBitmap acc.1 (r :: rs) acc.2, acc.2 + r.length + 1)]
        rfl

/-- A successful rasterization produces an image whose width is the
measured text width, which is positive (`create_text_image` returns
`None` whenever the measured width is 0). -/
theorem create_some_width (f : Font) (t : List Char) (img : Img)
    (h : create_text_image f t = some img) :
    img.width = (get_text_dimensions f t).1 ∧ 1 ≤ img.width := by
  by_cases hc : t = [] ∨ f.loaded = false
  · rw [create_text_image, if_pos hc] at h
    exact absurd h (by simp)
  · rw [create_text_image, if_neg hc] at h
    by_cases hw : (get_text_dimensions f t).1 = 0 ∨ (get_text_dimensions f t).2 = 0
    · rw [if_pos hw] at h
      exact absurd h (by simp)
    · rw [if_neg hw] at h
      have himg := Option.some.inj h
      have hwidth : img.width = (get_text_dimensions f t).1 := by
        rw [← himg, drawFold_width]
        rfl
      refine ⟨hwidth, ?_⟩
      rw [hwidth]
      omega

/-! ## Width accumulation lemmas -/

theorem buildCalc_fst (f : Font) (ts : List Headline) :
    (buildCalc f ts).1 = (ts.map (successWidth f)).sum := by
  suffices h : ∀ (a : Nat) (l : List Img),
      ((ts.foldl (fun acc t =>
        match create_text_image f t with
        | some img => (acc.1 + img.width, acc.2 ++ [img])
        | none => (acc.1 + (get_text_dimensions f t).1, acc.2)) (a, l)).1
      = a + (ts.map (successWidth f)).sum) by
    simpa [buildCalc] using h 0 []
  induction ts with
  | nil => intro a l; simp
  | cons t ts ih =>
    intro a l
    rw [List.foldl_cons, List.map_cons, List.sum_cons]
    rcases h : create_text_image f t with _ | img
    · simp only [h]
      rw [ih, create_none_width_zero f t h]
      have hsw : successWidth f t = 0 := by simp [successWidth, h]
      omega
    · simp only [h]
      rw [ih]
      have hsw : successWidth f t = img.width := by simp [successWidth, h]
      omega

theorem appendCalc_fst (f : Font) (ts : List Headline) :
    (appendCalc f ts).1 = (ts.map (successWidth f)).sum := by
  suffices h : ∀ (a : Nat) (l : List Img),
      ((ts.foldl (fun acc t =>
        match create_text_image f t with
        | some img => (acc.1 + img.width, acc.2 ++ [img])
        | none => acc) (a, l)).1
      = a + (ts.map (successWidth f)).sum) by
    simpa [appendCalc] using h 0 []
  induction ts with
  | nil => intro a l; simp
  | cons t ts ih =>
    intro a l
    rw [List.foldl_cons, List.map_cons, List.sum_cons]
    rcases h : create_text_image f t with _ | img
    · simp only [h]
      rw [ih]
      have hsw : successWidth f t = 0 := by simp [successWidth, h]
      omega
    · simp only [h]
      rw [ih]
      have hsw : successWidth f t = img.width := by simp [successWidth, h]
      omega

theorem appendCalc_no_images (f : Font) (ts : List Headline) :
    (appendCalc f ts).2 = [] → (appendCalc f ts).1 = 0 := by
  suffices h : ∀ (a : Nat) (l : List Img),
      ((ts.foldl (fun acc t =>
        match create_text_image f t with
        | some img => (acc.1 + img.width, acc.2 ++ [img])
        | none => acc) (a, l)).2 = []
      → (ts.foldl (fun acc t =>
        match create_text_image f t with
        | some img => (acc.1 + img.width, acc.2 ++ [img])
        | none => acc) (a, l)).1 = a ∧ l = []) by
    intro hemp
    exact ((h 0 []) hemp).1
  induction ts with
  | nil => intro a l hl; exact ⟨rfl, hl⟩
  | cons t ts ih =>
    intro a l
    rw [List.foldl_cons]
    rcases h : create_text_image f t with _ | img
    · simp only [h]
      intro hemp
      exact ih a l hemp
    · simp only [h]
      intro hemp
      have := (ih _ _ hemp).2
      exact absurd this (by simp)

/-! ## Behavioural lemmas about the operations -/

theorem update_headlines_stable (f : Font) (s : ScrollerState) (L : List Headline) :
    update_headlines f (update_headlines f s L) L = update_headlines f s L := by
  by_cases hL : L = []
  · simp [update_headlines, hL]
  · by_cases hh : some L = s.last_headlines_hash
    · have hinner : update_headlines f s L = s := by
        rw [update_headlines, if_neg hL, if_pos hh]
      rw [hinner, update_headlines, if_neg hL, if_pos hh]
    · have hlast : (update_headlines f s L).last_headlines_hash = some L := by
        rw [update_headlines, if_neg hL, if_neg hh]
      conv_lhs => rw [update_headlines]
      rw [if_neg hL, if_pos hlast.symm]

theorem appendStrip_current (f : Font) (s : ScrollerState) (L : List Headline) (st : Img)
    (hst : s.headline_strip = some st) :
    ∃ t, (appendStrip f s L).current_headlines = s.current_headlines ++ t := by
  cases L with
  | nil => exact ⟨[], by simp [appendStrip, buildStrip]⟩
  | cons h0 L0 =>
    simp only [appendStrip, hst]
    rcases hwc : (appendCalc f (appendTexts (h0 :: L0))).2 with _ | ⟨i, is⟩
    · exact ⟨[], by simp [hwc]⟩
    · exact ⟨h0 :: L0, by simp [hwc]⟩

theorem update_current (f : Font) (s : ScrollerState) (L : List Headline) (st : Img)
    (hst : s.headline_strip = some st) :
    ∃ t, (update_headlines f s L).current_headlines = s.current_headlines ++ t := by
  by_cases hL : L = []
  · exact ⟨[], by simp [update_headlines, hL]⟩
  · by_cases hh : some L = s.last_headlines_hash
    · exact ⟨[], by rw [update_headlines, if_neg hL, if_pos hh]; simp⟩
    · obtain ⟨t, ht⟩ := appendStrip_current f s L st hst
      refine ⟨t, ?_⟩
      rw [update_headlines, if_neg hL, if_neg hh]
      exact ht

@[simp] theorem pasteCopy_width (dst src : Img) (x0 : Nat) :
    (pasteCopy dst src x0).width = dst.width := rfl

@[simp] theorem pasteCopy_height (dst src : Img) (x0 : Nat) :
    (pasteCopy dst src x0).height = dst.height := rfl

@[simp] theorem crop_width (img : Img) (a b : Nat) : (crop img a b).width = b - a := rfl

@[simp] theorem crop_height (img : Img) (a b : Nat) :
    (crop img a b).height = HEADLINES_HEIGHT := rfl

@[simp] theorem newImg_width (w h : Nat) : (newImg w h).width = w := rfl

@[simp] theorem newImg_height (w h : Nat) : (newImg w h).height = h := rfl

theorem getLastD_drop {α : Type} (l : List α) (k : Nat) (d : α) (h : k < l.length) :
    (l.drop k).getLastD d = l.getLastD d := by
  induction l generalizing k d with
  | nil => simp at h
  | cons a l ih =>
    cases k with
    | zero => rfl
    | succ k =>
      have hk : k < l.length := by simpa using h
      rw [List.drop_succ_cons, ih k d hk, List.getLastD_cons]
      exact getLastD_indep l d a (by intro he; rw [he] at hk; simp at hk)

theorem stripInv_iff (s : ScrollerState) :
    stripInv s = true ↔
      (s.blocks = [] ∨ s.strip_width = (s.blocks.getLastD default).end_pixel) := by
  simp [stripInv, List.isEmpty_iff]

theorem buildStrip_inv (f : Font) (s : ScrollerState) (L : List Headline) :
    stripInv (buildStrip f s L) = true := by
  cases L with
  | nil => simp [buildStrip, stripInv]
  | cons h0 L0 => simp [buildStrip, stripInv]

theorem appendStrip_inv (f : Font) (s : ScrollerState) (L : List Headline)
    (h : stripInv s = true) : stripInv (appendStrip f s L) = true := by
  cases L with
  | nil => exact buildStrip_inv f s []
  | cons h0 L0 =>
    rcases hs : s.headline_strip with _ | st
    · simp only [appendStrip, hs]
      exact buildStrip_inv f s (h0 :: L0)
    · simp only [appendStrip, hs]
      rcases hwc : (appendCalc f (appendTexts (h0 :: L0))).2 with _ | ⟨i, is⟩
      · simp only [hwc]
        exact h
      · simp only [hwc]
        rw [stripInv_iff]
        right
        simp [List.getLastD_concat]

theorem trim_inv (s : ScrollerState) (h : stripInv s = true) :
    stripInv (trim_scrolled_blocks s) = true := by
  by_cases hlen : s.blocks.length ≤ 1
  · rw [trim_scrolled_blocks, if_pos hlen]
    exact h
  · rcases htw : blocksToTrim s with _ | ⟨b0, bs0⟩
    · rw [trim_scrolled_blocks, if_neg hlen, htw]
      exact h
    · rcases hstrip : s.headline_strip with _ | st
      · rw [trim_scrolled_blocks, if_neg hlen, htw, hstrip]
        exact h
      · have hk : (b0 :: bs0).length ≤ s.blocks.length - 1 := by
          rw [← htw]
          have hle := tw_length_le (fun b => decide (b.end_pixel < s.scroll_x)) s.blocks.dropLast
          simpa [blocksToTrim] using hle
        have hklt : (b0 :: bs0).length < s.blocks.length := by omega
        have hdropne : s.blocks.drop (b0 :: bs0).length ≠ [] := by
          intro he
          have hlen3 := congrArg List.length he
          simp only [List.length_drop, List.length_nil] at hlen3
          omega
        rw [trim_scrolled_blocks, if_neg hlen, htw, hstrip]
        rw [stripInv_iff]
        right
        dsimp only
        rw [getLastD_indep _ default
          ((fun (b : Block) => (⟨b.start_pixel - trimAmount s, b.end_pixel - trimAmount s,
              b.headline_count⟩ : Block)) default) (by simpa using hdropne)]
        rw [List.getLastD_map, getLastD_drop _ _ _ hklt]
        have hinv := (stripInv_iff s).mp h
        rcases hinv with hemp | heq
        · rw [hemp] at hklt
          simp at hklt
        · rw [heq]
          rfl


/-- C6: calling `update_headlines` twice in succession with the same
headline list leaves `strip_width` and the block count unchanged after
the first call — the second call sees an identical fingerprint and is a
no-op. -/
theorem update_headlines_idempotent (f : Font) (s : ScrollerState) (L : List Headline) :
    (update_headlines f (update_headlines f s L) L).strip_width
        = (update_headlines f s L).strip_width ∧
    (update_headlines f (update_headlines f s L) L).blocks.length
        = (update_headlines f s L).blocks.length := by
  rw [update_headlines_stable]
  exact ⟨rfl, rfl⟩

/-- C9: `trim_scrolled_blocks` never modifies `current_headlines` — the
list after a trim equals the list before it — and, when a strip exists,
`update_headlines` only ever extends `current_headlines` on the right, so
the list is never reclaimed. -/
theorem trim_preserves_current_headlines :
    (∀ s : ScrollerState,
      (trim_scrolled_blocks s).current_headlines = s.current_headlines) ∧
    (∀ (f : Font) (s : ScrollerState) (L : List Headline) (st : Img),
      s.headline_strip = some st →
      ∃ t, (update_headlines f s L).current_headlines = s.current_headlines ++ t) := by
  constructor
  · intro s
    rw [trim_scrolled_blocks]
    split
    · rfl
    · split
      · rfl
      · split
        · rfl
        · rfl
  · exact update_current

/-- C4: whenever the block list is non-empty, `strip_width` equals the
last block's `end_pixel`, and this invariant (`stripInv`) is established
by `_build_headline_strip` and preserved by `_append_headlines_to_strip`
and `trim_scrolled_blocks`. -/
theorem strip_width_matches_last_block :
    (∀ (f : Font) (s : ScrollerState) (L : List Headline),
        stripInv (buildStrip f s L) = true) ∧
    (∀ (f : Font) (s : ScrollerState) (L : List Headline),
        stripInv s = true → stripInv (appendStrip f s L) = true) ∧
    (∀ s : ScrollerState, stripInv s = true → stripInv (trim_scrolled_blocks s) = true) :=
  ⟨buildStrip_inv, appendStrip_inv, trim_inv⟩

/-- C8: `get_display_slice` always returns an image of exactly
`display_width × HEADLINES_HEIGHT` pixels — in the in-bounds case, the
wrap-around case, and the no-strip case — and, whenever a strip exists,
first normalizes the cursor to 0 when `scroll_x >= strip_width`. -/
theorem get_display_slice_size (s : ScrollerState) :
    (get_display_slice s).2.width = s.display_width ∧
    (get_display_slice s).2.height = HEADLINES_HEIGHT ∧
    (s.headline_strip.isSome = true →
      (get_display_slice s).1.scroll_x
        = if s.strip_width ≤ s.scroll_x then 0 else s.scroll_x) := by
  rcases hs : s.headline_strip with _ | st
  · refine ⟨by simp [get_display_slice, hs], by simp [get_display_slice, hs], ?_⟩
    intro hsome
    simp [hs] at hsome
  · simp only [get_display_slice, hs]
    by_cases hend :
      (if s.strip_width ≤ s.scroll_x then 0 else s.scroll_x) + s.display_width ≤ s.strip_width
    · rw [if_pos hend]
      refine ⟨?_, rfl, fun _ => rfl⟩
      simp only [crop_width]
      omega
    · rw [if_neg hend]
      refine ⟨?_, ?_, fun _ => rfl⟩
      · dsimp only
        split <;> split <;> (try split) <;> simp
      · dsimp only
        split <;> split <;> (try split) <;> simp

/-- C5: a headline whose rasterization fails contributes zero pixels of
width in both the initial build (its `getsize` fallback measures 0
whenever `create_text_image` returns `None`) and the append (it is
skipped outright): both resulting strip widths count only the widths of
successful rasterizations, and both operations complete for the
remaining headlines. -/
theorem raster_failure_contributes_zero (f : Font) (s : ScrollerState) (L : List Headline)
    (hfb : ∃ t ∈ buildTexts L, (create_text_image f t).isNone = true) :
    (buildStrip f s L).strip_width
        = ((buildTexts L).map (successWidth f)).sum + 2 * s.display_width ∧
    (∀ st : Img, s.headline_strip = some st →
      (appendStrip f s L).strip_width
        = s.strip_width + ((appendTexts L).map (successWidth f)).sum) := by
  have hLne : L ≠ [] := by
    intro he
    rcases hfb with ⟨t, ht, _⟩
    rw [he] at ht
    simp [buildTexts] at ht
  constructor
  · cases L with
    | nil => exact absurd rfl hLne
    | cons h0 L0 =>
      rw [buildStrip, if_neg (by simp : ¬(h0 :: L0 = []))]
      dsimp only
      rw [← buildCalc_fst]
  · intro st hst
    cases L with
    | nil => exact absurd rfl hLne
    | cons h0 L0 =>
      simp only [appendStrip, hst]
      rcases hwc : (appendCalc f (appendTexts (h0 :: L0))).2 with _ | ⟨i, is⟩
      · simp only [hwc]
        have hzero := appendCalc_no_images f (appendTexts (h0 :: L0)) hwc
        rw [appendCalc_fst] at hzero
        omega
      · simp only [hwc]
        rw [appendCalc_fst]

/-- C7: with a fingerprint differing from the most recently applied one,
a non-empty headline list with at least one successfully rasterizing
headline strictly grows `strip_width` through `update_headlines`. -/
theorem update_strictly_grows (f : Font) (s : ScrollerState) (L : List Headline)
    (hL : L ≠ []) (hh : s.last_headlines_hash ≠ some L) (st : Img)
    (hst : s.headline_strip = some st)
    (hsucc : ∃ h ∈ L, (create_text_image f (SEPARATOR ++ h)).isSome = true) :
    s.strip_width < (update_headlines f s L).strip_width := by
  rw [update_headlines, if_neg hL, if_neg (fun he => hh he.symm)]
  dsimp only
  have hsum : 1 ≤ ((appendTexts L).map (successWidth f)).sum := by
    obtain ⟨h, hmem, hsome⟩ := hsucc
    rcases hcreate : create_text_image f (SEPARATOR ++ h) with _ | img
    · rw [hcreate] at hsome
      simp at hsome
    · have himgw := (create_some_width f _ img hcreate).2
      have hsw : successWidth f (SEPARATOR ++ h) = img.width := by
        simp [successWidth, hcreate]
      have hmem2 : SEPARATOR ++ h ∈ appendTexts L :=
        List.mem_map_of_mem _ hmem
      have hmem3 : successWidth f (SEPARATOR ++ h)
          ∈ (appendTexts L).map (successWidth f) :=
        List.mem_map_of_mem _ hmem2
      have hle := List.single_le_sum (fun x _ => Nat.zero_le x) _ hmem3
      omega
  cases L with
  | nil => exact absurd rfl hL
  | cons h0 L0 =>
    simp only [appendStrip, hst]
    rcases hwc : (appendCalc f (appendTexts (h0 :: L0))).2 with _ | ⟨i, is⟩
    · exfalso
      have hzero := appendCalc_no_images f _ hwc
      rw [appendCalc_fst] at hzero
      omega
    · simp only [hwc]
      have hfst := appendCalc_fst f (appendTexts (h0 :: L0))
      omega

/-- C10: `advance_scroll` with an explicit argument of 0 behaves exactly
like `advance_scroll` with no argument (Python's `pixels or
self.scroll_speed` treats 0 as falsy), and in particular advances the
cursor by the current `scroll_speed` when no wrap and no trim trigger
interferes. -/
theorem advance_scroll_zero (s : ScrollerState) :
    advance_scroll s (some 0) = advance_scroll s none ∧
    (∀ st : Img, s.headline_strip = some st →
      s.scroll_x + s.scroll_speed < s.strip_width →
      ¬((s.scroll_x + s.scroll_speed) % 1000 < s.scroll_speed) →
      (advance_scroll s (some 0)).scroll_x = s.scroll_x + s.scroll_speed) := by
  constructor
  · cases hs : s.headline_strip with
    | none => rw [advance_scroll, advance_scroll, hs]
    | some st =>
      rw [advance_scroll, advance_scroll, hs]
      simp
  · intro st hst h1 h2
    simp only [advance_scroll, hst, eq_self_iff_true, if_true]
    rw [if_neg (show ¬s.strip_width ≤ s.scroll_x + s.scroll_speed by omega)]
    rw [if_neg h2]

theorem tw_eq_take {α : Type} (p : α → Bool) (l : List α) :
    l.takeWhile p = l.take (l.takeWhile p).length := by
  induction l with
  | nil => rfl
  | cons a l ih =>
    by_cases h : p a = true
    · rw [List.takeWhile_cons, if_pos h, List.length_cons, List.take_succ_cons, ← ih]
    · rw [List.takeWhile_cons, if_neg h]
      rfl

/-- C2: under the block invariants (contiguous, ordered, starting at 0,
last block ending at `strip_width`) and a valid cursor, after
`trim_scrolled_blocks` every remaining block has a positive `end_pixel`,
and both the cursor and the strip width have decreased by exactly the
trimmed width, which never exceeds the old cursor (so the subtraction
never underflows). -/
theorem trim_scrolled_blocks_correct (s : ScrollerState)
    (hne : s.blocks ≠ [])
    (hwf : blocksWF 0 s.blocks = true)
    (hlast : (s.blocks.getLastD default).end_pixel = s.strip_width)
    (hsx : s.scroll_x < s.strip_width) :
    trimmedWidth s ≤ s.scroll_x ∧
    (trim_scrolled_blocks s).scroll_x = s.scroll_x - trimmedWidth s ∧
    (trim_scrolled_blocks s).strip_width = s.strip_width - trimmedWidth s ∧
    ∀ b ∈ (trim_scrolled_blocks s).blocks, 0 < b.end_pixel := by
  have hends : ∀ b ∈ s.blocks, 0 < b.end_pixel := blocksWF_end_gt 0 s.blocks hwf
  by_cases hlen : s.blocks.length ≤ 1
  · rw [trim_scrolled_blocks, if_pos hlen]
    rw [trimmedWidth, if_pos hlen]
    exact ⟨Nat.zero_le _, rfl, rfl, hends⟩
  · rcases htw : blocksToTrim s with _ | ⟨b0, bs0⟩
    · rw [trim_scrolled_blocks, if_neg hlen, htw]
      rw [trimmedWidth, if_neg hlen, htw]
      exact ⟨Nat.zero_le _, rfl, rfl, hends⟩
    · rcases hstrip : s.headline_strip with _ | st
      · rw [trim_scrolled_blocks, if_neg hlen, htw, hstrip]
        rw [trimmedWidth, if_neg hlen, htw, hstrip]
        exact ⟨Nat.zero_le _, rfl, rfl, hends⟩
      · have htw' : s.blocks.dropLast.takeWhile
            (fun b => decide (b.end_pixel < s.scroll_x)) = b0 :: bs0 := htw
        have hk : (b0 :: bs0).length ≤ s.blocks.length - 1 := by
          rw [← htw']
          have hle := tw_length_le (fun b => decide (b.end_pixel < s.scroll_x)) s.blocks.dropLast
          simpa using hle
        have htamem : (b0 :: bs0).getLastD default ∈
            s.blocks.dropLast.takeWhile (fun b => decide (b.end_pixel < s.scroll_x)) := by
          rw [htw']
          exact getLastD_mem _ default (by simp)
        have htalt : ((b0 :: bs0).getLastD default).end_pixel < s.scroll_x := by
          have := tw_mem_pred _ _ _ htamem
          simpa using this
        have hta : trimAmount s = ((b0 :: bs0).getLastD default).end_pixel := by
          rw [trimAmount, htw]
        have htakebs : s.blocks.take (b0 :: bs0).length = b0 :: bs0 := by
          have e1 : s.blocks.dropLast.take (b0 :: bs0).length = b0 :: bs0 := by
            conv_rhs => rw [← htw', tw_eq_take]
            rw [htw']
          conv_rhs => rw [← e1]
          rw [List.dropLast_eq_take, List.take_take, Nat.min_eq_left hk]
        have hes : s.blocks = (b0 :: bs0) ++ s.blocks.drop (b0 :: bs0).length := by
          conv_lhs => rw [← List.take_append_drop (b0 :: bs0).length s.blocks]
          rw [htakebs]
        have hwfrest : blocksWF (lastEndD (b0 :: bs0) 0)
            (s.blocks.drop (b0 :: bs0).length) = true := by
          refine blocksWF_append 0 (b0 :: bs0) _ ?_
          rw [← hes]
          exact hwf
        have hlerest : lastEndD (b0 :: bs0) 0 = trimAmount s := by
          rw [lastEndD_eq_getLastD _ _ default (by simp), hta]
        rw [trim_scrolled_blocks, if_neg hlen, htw, hstrip]
        rw [trimmedWidth, if_neg hlen, htw, hstrip]
        refine ⟨?_, rfl, rfl, ?_⟩
        · show trimAmount s ≤ s.scroll_x
          omega
        dsimp only
        intro b' hb'
        rw [List.mem_map] at hb'
        obtain ⟨b, hbmem, hbeq⟩ := hb'
        have hgt : trimAmount s < b.end_pixel := by
          have := blocksWF_end_gt _ _ hwfrest b hbmem
          omega
        rw [← hbeq]
        dsimp only
        omega

/-- Concrete state for the C1 counterexample: two contiguous blocks and
the cursor sitting exactly at the first block's `end_pixel`. -/
def c1State : ScrollerState :=
  { display_width := 64, scroll_speed := 1,
    headline_strip := some (newImg 10 8),
    strip_width := 10, scroll_x := 5,
    current_headlines := [], last_headlines_hash := none,
    blocks := [⟨0, 5, 1⟩, ⟨5, 10, 1⟩] }

/-- C1 counterexample: the claim says a leading block with `end_pixel`
equal to `scroll_x` is removed; in `c1State` the first block has
`end_pixel = scroll_x = 5` and is not the most recent block, yet
`trim_scrolled_blocks` removes nothing, because the code trims only on
the strict comparison `scroll_x > end_pixel`. -/
theorem trim_keeps_block_ending_at_cursor :
    2 ≤ c1State.blocks.length ∧
    (c1State.blocks.getD 0 default).end_pixel ≤ c1State.scroll_x ∧
    (trim_scrolled_blocks c1State).blocks = c1State.blocks := by
  refine ⟨by decide, by decide, by decide⟩

/-- C1 (amended): for every state with at least two blocks and an
existing strip image, `trim_scrolled_blocks` removes exactly the leading
contiguous run of blocks whose `end_pixel` is strictly below `scroll_x`
(a block with `end_pixel` equal to `scroll_x` is kept), scanning from the
oldest block forward, stopping at the first block not strictly passed and
never considering the most recent block; the survivors are the remaining
blocks shifted left by the trimmed width. -/
theorem trim_removes_exactly_strictly_passed (s : ScrollerState)
    (hlen : 2 ≤ s.blocks.length) (hstrip : s.headline_strip.isSome = true) :
    ∃ k, k ≤ s.blocks.length - 1 ∧
      (trim_scrolled_blocks s).blocks.length = s.blocks.length - k ∧
      (∀ i, i < k → (s.blocks.getD i default).end_pixel < s.scroll_x) ∧
      (k + 1 < s.blocks.length → ¬(s.blocks.getD k default).end_pixel < s.scroll_x) ∧
      (∀ i, i < s.blocks.length - k →
        (trim_scrolled_blocks s).blocks.getD i default
          = ⟨(s.blocks.getD (k + i) default).start_pixel - trimmedWidth s,
             (s.blocks.getD (k + i) default).end_pixel - trimmedWidth s,
             (s.blocks.getD (k + i) default).headline_count⟩) := by
  have hlen' : ¬s.blocks.length ≤ 1 := by omega
  have hdll : s.blocks.dropLast.length = s.blocks.length - 1 := by
    simp [List.length_dropLast]
  rcases htw : blocksToTrim s with _ | ⟨b0, bs0⟩
  · have hts : trim_scrolled_blocks s = s := by
      rw [trim_scrolled_blocks, if_neg hlen', htw]
    have htz : trimmedWidth s = 0 := by
      rw [trimmedWidth, if_neg hlen', htw]
    refine ⟨0, by omega, ?_, ?_, ?_, ?_⟩
    · rw [hts]
      omega
    · intro i hi
      omega
    · intro hk1
      have hstop := tw_stop (fun b => decide (b.end_pixel < s.scroll_x))
        s.blocks.dropLast default
        (by rw [blocksToTrim] at htw; rw [htw, List.length_nil, hdll]; omega)
      rw [blocksToTrim] at htw
      rw [htw, List.length_nil] at hstop
      rw [dropLast_getD s.blocks 0 default (by omega)] at hstop
      simpa using hstop
    · intro i hi
      rw [hts, htz]
      rcases hb : s.blocks.getD (0 + i) default with ⟨bs, be, bc⟩
      simp only [Nat.zero_add] at hb ⊢
      rw [hb]
      simp
  · rcases hstrip' : s.headline_strip with _ | st
    · rw [hstrip'] at hstrip
      simp at hstrip
    · have htw' : s.blocks.dropLast.takeWhile
          (fun b => decide (b.end_pixel < s.scroll_x)) = b0 :: bs0 := htw
      have hk : (b0 :: bs0).length ≤ s.blocks.length - 1 := by
        rw [← htw']
        have hle := tw_length_le (fun b => decide (b.end_pixel < s.scroll_x)) s.blocks.dropLast
        omega
      refine ⟨(b0 :: bs0).length, hk, ?_, ?_, ?_, ?_⟩
      · rw [trim_scrolled_blocks, if_neg hlen', htw, hstrip']
        dsimp only
        rw [List.length_map, List.length_drop]
      · intro i hi
        have hpred := tw_getD_pred (fun b => decide (b.end_pixel < s.scroll_x))
          s.blocks.dropLast i default (by rw [htw']; exact hi)
        rw [dropLast_getD s.blocks i default (by omega)] at hpred
        simpa using hpred
      · intro hk1
        have hstop := tw_stop (fun b => decide (b.end_pixel < s.scroll_x))
          s.blocks.dropLast default (by rw [htw']; omega)
        rw [htw'] at hstop
        rw [dropLast_getD s.blocks (b0 :: bs0).length default (by omega)] at hstop
        simpa using hstop
      · intro i hi
        have htz : trimmedWidth s = trimAmount s := by
          rw [trimmedWidth, if_neg hlen', htw, hstrip']
        rw [trim_scrolled_blocks, if_neg hlen', htw, hstrip']
        dsimp only
        rw [getD_map_lt _ _ i default default (by rw [List.length_drop]; omega)]
        rw [getD_drop]
        rw [htz]

/-- C3: when the viewport straddles the strip end — the spec's
instantiation `scroll_x = strip_width - 3`, `viewport_width = 10`,
`strip_width ≥ 13` — the slice returned by `get_display_slice` carries
the strip's last 3 columns in its first 3 columns and the strip's first
7 columns in the remaining 7 columns, in order. -/
theorem get_display_slice_wrap (s : ScrollerState) (st : Img)
    (hstrip : s.headline_strip = some st)
    (hw : st.width = s.strip_width)
    (hh : st.height = HEADLINES_HEIGHT)
    (hdw : s.display_width = 10)
    (hsx : s.scroll_x + 3 = s.strip_width)
    (hlen : 13 ≤ s.strip_width) :
    (∀ i, i < 3 → ∀ y, y < HEADLINES_HEIGHT →
      (get_display_slice s).2.px i y = st.px (s.strip_width - 3 + i) y) ∧
    (∀ i, 3 ≤ i → i < 10 → ∀ y, y < HEADLINES_HEIGHT →
      (get_display_slice s).2.px i y = st.px (i - 3) y) := by
  have hnorm : ¬s.strip_width ≤ s.scroll_x := by omega
  have hend : ¬s.scroll_x + s.display_width ≤ s.strip_width := by omega
  have hrem : 0 < s.strip_width - s.scroll_x := by omega
  have hwrap : 0 < s.display_width - (s.strip_width - s.scroll_x) := by omega
  simp only [get_display_slice, hstrip, if_neg hnorm]
  rw [if_neg hend, if_pos hrem, if_pos hwrap]
  have hmin : min (s.display_width - (s.strip_width - s.scroll_x)) s.strip_width
      = s.display_width - (s.strip_width - s.scroll_x) := by
    apply Nat.min_eq_left
    omega
  rw [hmin]
  constructor
  · intro i hi y hy
    simp only [HEADLINES_HEIGHT] at hy
    simp only [pasteCopy, crop, newImg, HEADLINES_HEIGHT, hw, hh, hdw]
    split_ifs <;>
      first
        | (congr 2 <;> omega)
        | omega
  · intro i hi1 hi2 y hy
    simp only [HEADLINES_HEIGHT] at hy
    simp only [pasteCopy, crop, newImg, HEADLINES_HEIGHT, hw, hh, hdw]
    split_ifs <;>
      first
        | (congr 2 <;> omega)
        | omega

/-! ## Concrete witness data -/

/-- A small well-formed state: two contiguous blocks, the first strictly
scrolled past (`end_pixel 5 < scroll_x 6`). -/
def wState : ScrollerState :=
  { display_width := 64, scroll_speed := 1,
    headline_strip := some (newImg 9 8),
    strip_width := 9, scroll_x := 6,
    current_headlines := [], last_headlines_hash := none,
    blocks := [⟨0, 5, 2⟩, ⟨5, 9, 1⟩] }

/-- A font whose load failed: every rasterization returns `none`. -/
def wFontOff : Font := ⟨false, fun _ => none⟩

/-- A loaded font knowing only the character `A` (one 1×1 glyph). -/
def wFontOn : Font := ⟨true, fun c => if c = 'A' then some [[true]] else none⟩

/-- A 13-column strip whose pixels encode their own coordinates. -/
def w3Img : Img := ⟨13, 8, fun x y => (x, y, 0)⟩

/-- A wrap-straddling state over `w3Img`: viewport 10, cursor at
`strip_width - 3`. -/
def w3State : ScrollerState :=
  { display_width := 10, scroll_speed := 1,
    headline_strip := some w3Img,
    strip_width := 13, scroll_x := 10,
    current_headlines := [], last_headlines_hash := none,
    blocks := [⟨0, 13, 1⟩] }

/-! ## Witnesses -/

/-- Witness for C1's amended theorem at `wState`. -/
theorem trim_removes_exactly_strictly_passed_witness :
    2 ≤ wState.blocks.length ∧ wState.headline_strip.isSome = true ∧
    (∃ k, k ≤ wState.blocks.length - 1 ∧
      (trim_scrolled_blocks wState).blocks.length = wState.blocks.length - k ∧
      (∀ i, i < k → (wState.blocks.getD i default).end_pixel < wState.scroll_x) ∧
      (k + 1 < wState.blocks.length →
        ¬(wState.blocks.getD k default).end_pixel < wState.scroll_x) ∧
      (∀ i, i < wState.blocks.length - k →
        (trim_scrolled_blocks wState).blocks.getD i default
          = ⟨(wState.blocks.getD (k + i) default).start_pixel - trimmedWidth wState,
             (wState.blocks.getD (k + i) default).end_pixel - trimmedWidth wState,
             (wState.blocks.getD (k + i) default).headline_count⟩)) :=
  ⟨by decide, by decide,
   trim_removes_exactly_strictly_passed wState (by decide) (by decide)⟩

/-- Witness for C2 at `wState`. -/
theorem trim_scrolled_blocks_correct_witness :
    wState.blocks ≠ [] ∧ blocksWF 0 wState.blocks = true ∧
    (wState.blocks.getLastD default).end_pixel = wState.strip_width ∧
    wState.scroll_x < wState.strip_width ∧
    (trimmedWidth wState ≤ wState.scroll_x ∧
     (trim_scrolled_blocks wState).scroll_x = wState.scroll_x - trimmedWidth wState ∧
     (trim_scrolled_blocks wState).strip_width = wState.strip_width - trimmedWidth wState ∧
     ∀ b ∈ (trim_scrolled_blocks wState).blocks, 0 < b.end_pixel) :=
  ⟨by decide, by decide, by decide, by decide,
   trim_scrolled_blocks_correct wState (by decide) (by decide) (by decide) (by decide)⟩

/-- Witness for C3 at `w3State`. -/
theorem get_display_slice_wrap_witness :
    w3State.headline_strip = some w3Img ∧
    w3Img.width = w3State.strip_width ∧
    w3Img.height = HEADLINES_HEIGHT ∧
    w3State.display_width = 10 ∧
    w3State.scroll_x + 3 = w3State.strip_width ∧
    13 ≤ w3State.strip_width ∧
    ((∀ i, i < 3 → ∀ y, y < HEADLINES_HEIGHT →
        (get_display_slice w3State).2.px i y = w3Img.px (w3State.strip_width - 3 + i) y) ∧
     (∀ i, 3 ≤ i → i < 10 → ∀ y, y < HEADLINES_HEIGHT →
        (get_display_slice w3State).2.px i y = w3Img.px (i - 3) y)) :=
  ⟨rfl, rfl, rfl, rfl, by decide, by decide,
   get_display_slice_wrap w3State w3Img rfl rfl rfl rfl (by decide) (by decide)⟩

/-- Witness for C4: the invariant holds at `wState` and is preserved by
all three operations there. -/
theorem strip_width_matches_last_block_witness :
    stripInv wState = true ∧
    stripInv (buildStrip wFontOn wState [['A']]) = true ∧
    stripInv (appendStrip wFontOn wState [['A']]) = true ∧
    stripInv (trim_scrolled_blocks wState) = true :=
  ⟨by decide,
   strip_width_matches_last_block.1 wFontOn wState [['A']],
   strip_width_matches_last_block.2.1 wFontOn wState [['A']] (by decide),
   strip_width_matches_last_block.2.2 wState (by decide)⟩

/-- Witness for C5 with the failed-load font (every headline fails to
rasterize) at `wState`. -/
theorem raster_failure_contributes_zero_witness :
    (∃ t ∈ buildTexts [['A']], (create_text_image wFontOff t).isNone = true) ∧
    (buildStrip wFontOff wState [['A']]).strip_width
        = ((buildTexts [['A']]).map (successWidth wFontOff)).sum + 2 * wState.display_width ∧
    (appendStrip wFontOff wState [['A']]).strip_width
        = wState.strip_width + ((appendTexts [['A']]).map (successWidth wFontOff)).sum :=
  ⟨by decide,
   (raster_failure_contributes_zero wFontOff wState [['A']] (by decide)).1,
   (raster_failure_contributes_zero wFontOff wState [['A']] (by decide)).2
     (newImg 9 8) rfl⟩

/-- Witness for C7 with the loaded font at `wState`. -/
theorem update_strictly_grows_witness :
    ([['A']] : List Headline) ≠ [] ∧
    wState.last_headlines_hash ≠ some [['A']] ∧
    wState.headline_strip = some (newImg 9 8) ∧
    (∃ h ∈ ([['A']] : List Headline),
      (create_text_image wFontOn (SEPARATOR ++ h)).isSome = true) ∧
    wState.strip_width < (update_headlines wFontOn wState [['A']]).strip_width :=
  ⟨by decide, by decide, rfl, by decide,
   update_strictly_grows wFontOn wState [['A']] (by decide) (by decide)
     (newImg 9 8) rfl (by decide)⟩

/-- Witness for C8 at `wState`. -/
theorem get_display_slice_size_witness :
    wState.headline_strip.isSome = true ∧
    (get_display_slice wState).2.width = wState.display_width ∧
    (get_display_slice wState).1.scroll_x
        = if wState.strip_width ≤ wState.scroll_x then 0 else wState.scroll_x :=
  ⟨by decide, (get_display_slice_size wState).1,
   (get_display_slice_size wState).2.2 (by decide)⟩

/-- Witness for C9 at `wState`. -/
theorem trim_preserves_current_headlines_witness :
    wState.headline_strip = some (newImg 9 8) ∧
    (trim_scrolled_blocks wState).current_headlines = wState.current_headlines ∧
    ∃ t, (update_headlines wFontOn wState [['A']]).current_headlines
        = wState.current_headlines ++ t :=
  ⟨rfl, trim_preserves_current_headlines.1 wState,
   trim_preserves_current_headlines.2 wFontOn wState [['A']] (newImg 9 8) rfl⟩

/-- Witness for C10 at `wState`. -/
theorem advance_scroll_zero_witness :
    wState.headline_strip = some (newImg 9 8) ∧
    wState.scroll_x + wState.scroll_speed < wState.strip_width ∧
    ¬((wState.scroll_x + wState.scroll_speed) % 1000 < wState.scroll_speed) ∧
    (advance_scroll wState (some 0)).scroll_x = wState.scroll_x + wState.scroll_speed :=
  ⟨rfl, by decide, by decide,
   (advance_scroll_zero wState).2 (newImg 9 8) rfl (by decide) (by decide)⟩

end LedClock
